import Mathlib

/-!
Parallel Monte-Carlo driver for the damped mass-spring system (`para.c`).

A shallow embedding of `para.c`.  Doubles are embedded as rationals (exact
arithmetic), C `int`s that stay small and non-negative as naturals, the arrays
`tvec`, `y0vec`, `y0vec_recv` as lists of length `STEPS`.  The GSL integrator
`gsl_odeiv2_evolve_apply_fixed_step`, the libc generator `rand`, the constant
`RAND_MAX` and the outcome of `fopen` on `daten.dat` are external to the
program and enter as parameters.
-/

namespace Para

/-! ## Constants (`#define`s of `para.c`) -/

/-- Number of simulations, `#define REP 1000`. -/
def REP : Nat := 1000

/-- Number of compute steps, `#define STEPS 200`. -/
def STEPS : Nat := 200

/-- Step size, `#define H 0.01`. -/
def H : ℚ := 1 / 100

/-- Stiffness, `#define K 9000.0`. -/
def K : ℚ := 9000

/-- Mass, `#define M 450.0`. -/
def M : ℚ := 450

/-- Lower damping bound, `#define D_MIN 800.0`. -/
def D_MIN : ℚ := 800

/-- Upper damping bound, `#define D_MAX 1200.0`. -/
def D_MAX : ℚ := 1200

/-- The status `GSL_SUCCESS` of `gsl_errno.h`. -/
def GSL_SUCCESS : Int := 0

/-- The status `GSL_FAILURE` of `gsl_errno.h`. -/
def GSL_FAILURE : Int := -1

/-- The exit status `EXIT_SUCCESS`. -/
def EXIT_SUCCESS : Int := 0

/-! ## The oscillator model -/

/-- The array `params[3]`: `params[0] = k`, `params[1] = d`, `params[2] = m`. -/
structure Params where
  k : ℚ
  d : ℚ
  m : ℚ
deriving DecidableEq

/-- The function `f` of `para.c`: reads `k, d, m` from `params`, writes
`dydt[0] = y[1]` and `dydt[1] = - d / m * y[1] - k / m * y[0]`, returns
`GSL_SUCCESS`.  The result is the pair (status, `dydt`); `y` is `(y[0], y[1])`. -/
def f (_t : ℚ) (y : ℚ × ℚ) (params : Params) : Int × (ℚ × ℚ) :=
  let k := params.k
  let d := params.d
  let m := params.m
  (GSL_SUCCESS, (y.2, - d / m * y.2 - k / m * y.1))

/-- The struct `gsl_odeiv2_system` as `main` fills it: right-hand side and
parameter vector (the Jacobian is `NULL`, the dimension is 2). -/
structure OdeSystem where
  function : ℚ → ℚ × ℚ → Params → Int × (ℚ × ℚ)
  params : Params

/-- Result of one call of the integrator: returned status, new `t`, new `y`. -/
structure StepResult where
  status : Int
  t : ℚ
  y : ℚ × ℚ

/-- Interface of the external `gsl_odeiv2_evolve_apply_fixed_step`, called with
the system, the current time, the step size and the current state.  It is a
function of these inputs: the GSL scratch space carries no information between
calls. -/
abbrev Integrator := OdeSystem → ℚ → ℚ → ℚ × ℚ → StepResult

/-! ## The partition step of `main` -/

/-- Lines 128-130 of `main`: `l_rep = REP / world_size`, incremented when
`(REP % world_size) > 0 && (world_size - (REP % world_size)) <= world_rank`.
`R` stands for `REP`, `W` for `world_size`. -/
def l_rep (R W world_rank : Nat) : Nat :=
  let l := R / W
  if R % W > 0 ∧ W - R % W ≤ world_rank then l + 1 else l

/-! ## The replicate loop of `main` -/

/-- Line 143: the value stored in `params[1]` when `rand()` returned `r`,
`(D_MAX - D_MIN) * ((double)rand() / (double)RAND_MAX) + D_MIN`. -/
def damping (RAND_MAX r : Nat) : ℚ :=
  (D_MAX - D_MIN) * ((r : ℚ) / (RAND_MAX : ℚ)) + D_MIN

/-- The system `my_system` of `main` while `params[1]` holds `d`:
`function = f`, `params = {K, d, M}`. -/
def my_system (d : ℚ) : OdeSystem :=
  { function := f, params := { k := K, d := d, m := M } }

/-- The variables the simulation loop of `main` reads and writes. -/
structure Sim where
  t : ℚ
  y : ℚ × ℚ
  tvec : List ℚ
  y0vec : List ℚ

/-- Body of the simulation loop (lines 153-158) at loop index `steps`: one call
of the integrator on `my_system`, `t`, `H`, `y`, whose returned status is not
looked at, then `tvec[steps] = t` and `y0vec[steps] += y[0]`. -/
def simBody (ev : Integrator) (d : ℚ) (s : Sim) (steps : Nat) : Sim :=
  let r := ev (my_system d) s.t H s.y
  { t := r.t
    y := r.y
    tvec := s.tvec.set steps r.t
    y0vec := s.y0vec.set steps (s.y0vec.getD steps 0 + r.y.1) }

/-- The loop `for(steps=1; steps < STEPS; steps++)` of lines 150-159. -/
def simLoop (ev : Integrator) (d : ℚ) (s : Sim) : Sim :=
  (List.range' 1 (STEPS - 1)).foldl (simBody ev d) s

/-- Body of the replicate loop (lines 136-159) once `params[1]` holds `d`:
`y = {0.0, 0.1}`, `t = 0.0`, `tvec[0] = t`, `y0vec[0] += y[0]`, then the
simulation loop. -/
def replicate (ev : Integrator) (d : ℚ) (tvec y0vec : List ℚ) : Sim :=
  let y : ℚ × ℚ := (0, 1 / 10)
  let t : ℚ := 0
  simLoop ev d
    { t := t
      y := y
      tvec := tvec.set 0 t
      y0vec := y0vec.set 0 (y0vec.getD 0 0 + y.1) }

/-- The two arrays a process owns between the replicates. -/
structure Vecs where
  tvec : List ℚ
  y0vec : List ℚ
deriving DecidableEq

/-- Lines 108-109: `tvec` and `y0vec` as `calloc` returns them. -/
def calloc_vecs : Vecs :=
  { tvec := List.replicate STEPS 0, y0vec := List.replicate STEPS 0 }

/-- One turn of `for(rep=0; rep<l_rep; rep++)`: draws the damping from the
value `rnd rep` that the call of `rand()` returns in this turn, and runs the
replicate. -/
def repBody (ev : Integrator) (RAND_MAX : Nat) (rnd : Nat → Nat) (v : Vecs) (rep : Nat) :
    Vecs :=
  let s := replicate ev (damping RAND_MAX (rnd rep)) v.tvec v.y0vec
  { tvec := s.tvec, y0vec := s.y0vec }

/-- The replicate loop run `n` times from the freshly allocated arrays. -/
def repLoop (ev : Integrator) (RAND_MAX : Nat) (rnd : Nat → Nat) (n : Nat) : Vecs :=
  (List.range n).foldl (repBody ev RAND_MAX rnd) calloc_vecs

/-- Lines 108-161 on the process `world_rank` of `W`: the arrays after the
replicate loop.  `rnd j` is what the `j`-th call of `rand()` returns on this
process. -/
def worker (ev : Integrator) (RAND_MAX R W world_rank : Nat) (rnd : Nat → Nat) : Vecs :=
  repLoop ev RAND_MAX rnd (l_rep R W world_rank)

/-! ## Reduction and output -/

/-- The collective `MPI_Reduce(..., STEPS, MPI_DOUBLE, MPI_SUM, 0, ...)`: the
receive buffer of rank 0 holds, at each of the `STEPS` indices, the sum of the
send buffers of all `W` ranks. -/
def MPI_Reduce_SUM (W : Nat) (sendbuf : Nat → List ℚ) : List ℚ :=
  (List.range STEPS).map fun i => ∑ w in Finset.range W, (sendbuf w).getD i 0

/-- The division `a / b` of two doubles.  `none` stands for a quotient that is
not a number of the exact model (NaN or an infinity, when `b` is zero). -/
def ddiv (a b : ℚ) : Option ℚ :=
  if b = 0 then none else some (a / b)

/-- The function `save` of `para.c` (lines 65-82).  `fopen_ok` tells whether
`fopen(file, "w")` returned a stream.  With a stream the function writes one
row `t[i] y[i]` for every `i < n` and returns.  The result of `fopen` is not
checked: on a null stream the following `fprintf` or `fclose` kills the
process, nothing is written and `save` does not return, which is `none`. -/
def save (fopen_ok : Bool) (t : List ℚ) (y : List (Option ℚ)) (n : Nat) :
    Option (List (ℚ × Option ℚ)) :=
  if fopen_ok then some ((List.range n).map fun i => (t.getD i 0, y.getD i none)) else none

/-- What one process leaves behind: the rows written to `daten.dat`, if it
wrote the file, and the value `main` returns, if the process got as far as
returning from `main`. -/
structure Outcome where
  daten : Option (List (ℚ × Option ℚ))
  exit : Option Int
deriving DecidableEq

/-- Lines 188-193 on rank 0: the buffer `y0vec_recv` after the reduction and
after every element has been divided by `(double)REP`, with `REP = R`. -/
def y0vec_recv (ev : Integrator) (RAND_MAX R W : Nat) (rnd : Nat → Nat → Nat) :
    List (Option ℚ) :=
  (MPI_Reduce_SUM W fun w => (worker ev RAND_MAX R W w (rnd w)).y0vec).map
    fun s => ddiv s (R : ℚ)

/-- The function `main` on process `world_rank` of `W`, with `REP = R`.
`rnd w j` is what the `j`-th call of `rand()` returns on rank `w`, `fopen_ok`
whether `daten.dat` can be opened for writing.  After the replicate loop, rank
0 receives the reduced sum in `y0vec_recv`, divides every element by
`(double)REP` and calls `save` on `tvec` and `y0vec_recv`; if `save` returns,
`main` returns `EXIT_SUCCESS`, otherwise the process has died in `save`.  The
other ranks only take part in the reduction and return `EXIT_SUCCESS`. -/
def main (ev : Integrator) (RAND_MAX R W : Nat) (rnd : Nat → Nat → Nat) (fopen_ok : Bool)
    (world_rank : Nat) : Outcome :=
  let v := worker ev RAND_MAX R W world_rank (rnd world_rank)
  if world_rank = 0 then
    match save fopen_ok v.tvec (y0vec_recv ev RAND_MAX R W rnd) STEPS with
    | some rows => { daten := some rows, exit := some EXIT_SUCCESS }
    | none => { daten := none, exit := none }
  else
    { daten := none, exit := some EXIT_SUCCESS }

/-! ## Sample integrators

Instances of the integrator interface, used to evaluate the program at
concrete inputs, and a wrapper that overrides the returned status. -/

/-- An explicit Euler step on the system: `y + h * f(t, y)`, time advanced by
`h`, status of the right-hand side passed on. -/
def eulerStep : Integrator := fun sys t h y =>
  let r := sys.function t y sys.params
  { status := r.1, t := t + h, y := (y.1 + h * r.2.1, y.2 + h * r.2.2) }

/-- The integrator `ev` with the status of every call replaced by what `st`
gives for that call. -/
def withStatus (ev : Integrator) (st : OdeSystem → ℚ → ℚ → ℚ × ℚ → Int) : Integrator :=
  fun sys t h y => { ev sys t h y with status := st sys t h y }

/-- An integrator that advances by an Euler step when called at `t = 0` and
fails on every later call: it returns `GSL_FAILURE` and leaves `t` and `y` as
they are. -/
def failingStep : Integrator := fun sys t h y =>
  if t = 0 then eulerStep sys t h y else { status := GSL_FAILURE, t := t, y := y }

/-! ## Reference trajectory and loop prefixes -/

/-- Time and state after `n` integrator calls started from displacement 0,
velocity 0.1, time 0 with damping `d`. -/
def evolveState (ev : Integrator) (d : ℚ) : Nat → ℚ × (ℚ × ℚ)
  | 0 => (0, (0, 1 / 10))
  | n + 1 =>
    let s := evolveState ev d n
    let r := ev (my_system d) s.1 H s.2
    (r.t, r.y)

/-- The displacement after `i` integrator calls with damping `d`. -/
def traj (ev : Integrator) (d : ℚ) (i : Nat) : ℚ :=
  (evolveState ev d i).2.1

/-- The first `n` turns of the simulation loop. -/
def simLoopN (ev : Integrator) (d : ℚ) (n : Nat) (s : Sim) : Sim :=
  (List.range' 1 n).foldl (simBody ev d) s

/-! ## Partition: auxiliary facts -/

/-- On a rank of the communicator the guard `R % W > 0` is implied by the
second conjunct, so the count is the quotient plus one exactly from rank
`W - R % W` on. -/
theorem l_rep_eq_add_ite (R W i : Nat) (hW : 1 ≤ W) (hi : i < W) :
    l_rep R W i = R / W + if W - R % W ≤ i then 1 else 0 := by
  have hmod : R % W < W := Nat.mod_lt R hW
  unfold l_rep
  by_cases h : W - R % W ≤ i
  · have hpos : R % W > 0 := by omega
    simp [h, hpos]
  · simp [h]

/-- Number of indices below `n` that are at least `a`. -/
theorem sum_ite_le_range (a n : Nat) :
    (∑ i in Finset.range n, if a ≤ i then 1 else 0) = n - a := by
  induction n with
  | zero => simp
  | succ n ih =>
    rw [Finset.sum_range_succ, ih]
    split_ifs <;> omega

/-- The local counts of all ranks add up to the total. -/
theorem sum_l_rep (R W : Nat) (hW : 1 ≤ W) :
    (∑ i in Finset.range W, l_rep R W i) = R := by
  have hmod : R % W < W := Nat.mod_lt R hW
  have hcongr : (∑ i in Finset.range W, l_rep R W i)
      = ∑ i in Finset.range W, (R / W + if W - R % W ≤ i then 1 else 0) :=
    Finset.sum_congr rfl fun i hi =>
      l_rep_eq_add_ite R W i hW (Finset.mem_range.mp hi)
  rw [hcongr, Finset.sum_add_distrib, sum_ite_le_range, Finset.sum_const,
    Finset.card_range, smul_eq_mul]
  have hdm := Nat.div_add_mod R W
  have hsub : W - (W - R % W) = R % W := by omega
  rw [hsub]
  exact hdm

/-! ## Partition: the claims -/

/-- C1: for every worker count `W ≥ 1` and every total `R`, the local
replicate counts computed by the partition step of `main`, summed over the
ranks `0..W-1`, equal exactly `R`. -/
theorem C1_local_counts_sum_to_total (R W : Nat) (hW : 1 ≤ W) :
    (∑ world_rank in Finset.range W, l_rep R W world_rank) = R :=
  sum_l_rep R W hW

/-- Witness of C1 at the compiled total `REP = 1000` on 7 processes. -/
theorem C1_local_counts_sum_to_total_witness :
    1 ≤ 7 ∧ (∑ world_rank in Finset.range 7, l_rep REP 7 world_rank) = REP :=
  ⟨by decide, C1_local_counts_sum_to_total REP 7 (by decide)⟩

/-- C2: for every `W ≥ 1`, every `R` and every two ranks `i, j` below `W`, the
local replicate counts of rank `i` and rank `j` differ by at most 1. -/
theorem C2_local_counts_differ_by_at_most_one (R W i j : Nat) (hW : 1 ≤ W)
    (hi : i < W) (hj : j < W) :
    l_rep R W i ≤ l_rep R W j + 1 ∧ l_rep R W j ≤ l_rep R W i + 1 := by
  rw [l_rep_eq_add_ite R W i hW hi, l_rep_eq_add_ite R W j hW hj]
  constructor <;> split_ifs <;> omega

/-- Witness of C2: ranks 0 and 3 of 4 processes with 1001 replicates. -/
theorem C2_local_counts_differ_by_at_most_one_witness :
    1 ≤ 4 ∧ 0 < 4 ∧ 3 < 4 ∧
      l_rep 1001 4 0 ≤ l_rep 1001 4 3 + 1 ∧ l_rep 1001 4 3 ≤ l_rep 1001 4 0 + 1 :=
  ⟨by decide, by decide, by decide,
    C2_local_counts_differ_by_at_most_one 1001 4 0 3 (by decide) (by decide) (by decide)⟩

/-- C3: for every `W ≥ 1`, every `R` and every rank `i` below `W`, the local
replicate count is `R / W + 1` if `i ≥ W - R % W` and `R / W` otherwise; the
ranks that get the extra replicate are exactly the `R % W` highest ones; and
`R = 1000, W = 4` gives `250, 250, 250, 250`, `R = 1001, W = 4` gives
`250, 250, 250, 251` for the ranks `0..3`. -/
theorem C3_local_count_formula (R W i : Nat) (hW : 1 ≤ W) (hi : i < W) :
    l_rep R W i = (if W - R % W ≤ i then R / W + 1 else R / W) ∧
    (Finset.range W).filter (fun j => l_rep R W j = R / W + 1)
      = Finset.Ico (W - R % W) W ∧
    ((Finset.range W).filter (fun j => l_rep R W j = R / W + 1)).card = R % W ∧
    (List.range 4).map (l_rep 1000 4) = [250, 250, 250, 250] ∧
    (List.range 4).map (l_rep 1001 4) = [250, 250, 250, 251] := by
  have hmod : R % W < W := Nat.mod_lt R hW
  have hset : (Finset.range W).filter (fun j => l_rep R W j = R / W + 1)
      = Finset.Ico (W - R % W) W := by
    ext j
    simp only [Finset.mem_filter, Finset.mem_range, Finset.mem_Ico]
    constructor
    · rintro ⟨hj, h⟩
      rw [l_rep_eq_add_ite R W j hW hj] at h
      refine ⟨?_, hj⟩
      by_contra hc
      rw [if_neg hc] at h
      omega
    · rintro ⟨h, hj⟩
      refine ⟨hj, ?_⟩
      rw [l_rep_eq_add_ite R W j hW hj, if_pos h]
  refine ⟨?_, hset, ?_, by decide, by decide⟩
  · rw [l_rep_eq_add_ite R W i hW hi]
    split_ifs <;> rfl
  · rw [hset, Nat.card_Ico]
    omega

/-- Witness of C3: rank 3 of 4 processes with 1001 replicates. -/
theorem C3_local_count_formula_witness :
    1 ≤ 4 ∧ 3 < 4 ∧ l_rep 1001 4 3 = 251 :=
  ⟨by decide, by decide, by
    have h := (C3_local_count_formula 1001 4 3 (by decide) (by decide)).1
    simpa using h⟩

/-! ## Arrays: auxiliary facts -/

/-- Reading index `j` after writing index `i`. -/
theorem getD_set_zero (l : List ℚ) (i j : Nat) (a : ℚ) :
    (l.set i a).getD j 0 = if i = j ∧ i < l.length then a else l.getD j 0 := by
  simp only [List.getD_eq_getElem?_getD, List.getElem?_set]
  by_cases hij : i = j
  · subst hij
    by_cases hi : i < l.length
    · simp [hi]
    · have hnone : l[i]? = none := List.getElem?_eq_none (Nat.le_of_not_lt hi)
      simp [hi, hnone]
  · simp [hij]

/-- Every element of a zero-initialised array reads as zero. -/
theorem getD_replicate_zero (n i : Nat) : (List.replicate n (0 : ℚ)).getD i 0 = 0 := by
  simp only [List.getD_eq_getElem?_getD, List.getElem?_replicate]
  split_ifs <;> rfl

/-! ## The simulation loop: auxiliary facts -/

theorem simLoopN_succ (ev : Integrator) (d : ℚ) (n : Nat) (s : Sim) :
    simLoopN ev d (n + 1) s = simBody ev d (simLoopN ev d n s) (n + 1) := by
  unfold simLoopN
  rw [List.range'_concat, List.foldl_append]
  have e : 1 + 1 * n = n + 1 := by omega
  rw [e]
  rfl

theorem simLoop_eq (ev : Integrator) (d : ℚ) (s : Sim) :
    simLoop ev d s = simLoopN ev d (STEPS - 1) s := rfl

/-- State of the simulation loop after `n` turns, started as a replicate
starts it. -/
theorem simLoopN_spec (ev : Integrator) (d : ℚ) (T Y : List ℚ) (n : Nat) :
    let s := simLoopN ev d n { t := 0, y := (0, 1 / 10), tvec := T, y0vec := Y }
    (s.t, s.y) = evolveState ev d n ∧
    s.tvec.length = T.length ∧ s.y0vec.length = Y.length ∧
    (∀ i, s.tvec.getD i 0 =
      if 1 ≤ i ∧ i ≤ n ∧ i < T.length then (evolveState ev d i).1 else T.getD i 0) ∧
    (∀ i, s.y0vec.getD i 0 =
      if 1 ≤ i ∧ i ≤ n ∧ i < Y.length then Y.getD i 0 + traj ev d i else Y.getD i 0) := by
  induction n with
  | zero =>
    simp only [simLoopN, List.range'_zero, List.foldl_nil]
    refine ⟨rfl, trivial, trivial, fun i => ?_, fun i => ?_⟩ <;> rw [if_neg (by omega)]
  | succ n ih =>
    obtain ⟨hst, hlt, hly, htv, hyv⟩ := ih
    rw [simLoopN_succ]
    generalize simLoopN ev d n { t := 0, y := (0, 1 / 10), tvec := T, y0vec := Y } = s at *
    have ht : s.t = (evolveState ev d n).1 := by rw [← hst]
    have hy : s.y = (evolveState ev d n).2 := by rw [← hst]
    refine ⟨?_, ?_, ?_, ?_, ?_⟩
    · simp [simBody, evolveState, ht, hy]
    · simp [simBody, hlt]
    · simp [simBody, hly]
    · intro i
      simp only [simBody, getD_set_zero, htv i, hlt]
      by_cases h1 : n + 1 = i
      · subst h1
        by_cases h2 : n + 1 < T.length
        · simp [h2, evolveState, ht, hy]
        · simp [h2]
      · by_cases h3 : 1 ≤ i ∧ i ≤ n ∧ i < T.length
        · have h4 : 1 ≤ i ∧ i ≤ n + 1 ∧ i < T.length := by omega
          simp [h1, h3, h4]
        · have h4 : ¬ (1 ≤ i ∧ i ≤ n + 1 ∧ i < T.length) := by omega
          simp [h1, h3, h4]
    · intro i
      simp only [simBody, getD_set_zero, hyv, hly]
      by_cases h1 : n + 1 = i
      · subst h1
        by_cases h2 : n + 1 < Y.length
        · simp [h2, traj, evolveState, ht, hy]
        · simp [h2]
      · by_cases h3 : 1 ≤ i ∧ i ≤ n ∧ i < Y.length
        · have h4 : 1 ≤ i ∧ i ≤ n + 1 ∧ i < Y.length := by omega
          simp [h1, h3, h4]
        · have h4 : ¬ (1 ≤ i ∧ i ≤ n + 1 ∧ i < Y.length) := by omega
          simp [h1, h3, h4]

/-! ## The replicate loop: auxiliary facts -/

theorem STEPS_pos : 0 < STEPS := by decide

/-- What one replicate does to arrays of length `STEPS`: the loop leaves `t`
and `y` as they are after `STEPS - 1` integrator calls, `tvec` holds the times
of the run, `y0vec` has grown by the displacements of the run. -/
theorem replicate_spec (ev : Integrator) (d : ℚ) (T Y : List ℚ)
    (hT : T.length = STEPS) (hY : Y.length = STEPS) :
    ((replicate ev d T Y).t, (replicate ev d T Y).y) = evolveState ev d (STEPS - 1) ∧
    (replicate ev d T Y).tvec.length = STEPS ∧
    (replicate ev d T Y).y0vec.length = STEPS ∧
    (∀ i, i < STEPS → (replicate ev d T Y).tvec.getD i 0 = (evolveState ev d i).1) ∧
    (∀ i, i < STEPS →
      (replicate ev d T Y).y0vec.getD i 0 = Y.getD i 0 + traj ev d i) := by
  have hpos := STEPS_pos
  have h := simLoopN_spec ev d (T.set 0 0) (Y.set 0 (Y.getD 0 0 + (0 : ℚ))) (STEPS - 1)
  simp only [List.length_set, hT, hY] at h
  obtain ⟨hst, hlt, hly, htv, hyv⟩ := h
  have hrep : replicate ev d T Y = simLoopN ev d (STEPS - 1)
      { t := 0, y := (0, 1 / 10), tvec := T.set 0 0,
        y0vec := Y.set 0 (Y.getD 0 0 + (0 : ℚ)) } := rfl
  rw [hrep]
  refine ⟨hst, hlt, hly, ?_, ?_⟩
  · intro i hi
    rw [htv i, getD_set_zero]
    by_cases h0 : i = 0
    · subst h0
      simp [hT, hpos, evolveState]
    · have hc : 1 ≤ i ∧ i ≤ STEPS - 1 ∧ i < STEPS := by omega
      rw [if_pos hc]
  · intro i hi
    rw [hyv i, getD_set_zero]
    by_cases h0 : i = 0
    · subst h0
      simp [hY, hpos, traj, evolveState]
    · have hc : 1 ≤ i ∧ i ≤ STEPS - 1 ∧ i < STEPS := by omega
      have hne : ¬ (0 = i ∧ 0 < Y.length) := by omega
      rw [if_pos hc, if_neg hne]

theorem calloc_vecs_length :
    calloc_vecs.tvec.length = STEPS ∧ calloc_vecs.y0vec.length = STEPS :=
  ⟨List.length_replicate STEPS 0, List.length_replicate STEPS 0⟩

theorem calloc_vecs_getD (i : Nat) :
    calloc_vecs.tvec.getD i 0 = 0 ∧ calloc_vecs.y0vec.getD i 0 = 0 :=
  ⟨getD_replicate_zero STEPS i, getD_replicate_zero STEPS i⟩

theorem repBody_tvec (ev : Integrator) (RAND_MAX : Nat) (rnd : Nat → Nat) (v : Vecs)
    (rep : Nat) :
    (repBody ev RAND_MAX rnd v rep).tvec
      = (replicate ev (damping RAND_MAX (rnd rep)) v.tvec v.y0vec).tvec := by
  simp only [repBody]

theorem repBody_y0vec (ev : Integrator) (RAND_MAX : Nat) (rnd : Nat → Nat) (v : Vecs)
    (rep : Nat) :
    (repBody ev RAND_MAX rnd v rep).y0vec
      = (replicate ev (damping RAND_MAX (rnd rep)) v.tvec v.y0vec).y0vec := by
  simp only [repBody]

theorem repLoop_zero (ev : Integrator) (RAND_MAX : Nat) (rnd : Nat → Nat) :
    repLoop ev RAND_MAX rnd 0 = calloc_vecs := rfl

theorem repLoop_succ (ev : Integrator) (RAND_MAX : Nat) (rnd : Nat → Nat) (n : Nat) :
    repLoop ev RAND_MAX rnd (n + 1)
      = repBody ev RAND_MAX rnd (repLoop ev RAND_MAX rnd n) n := by
  unfold repLoop
  rw [List.range_succ, List.foldl_append]
  rfl

/-- Both arrays keep the length `STEPS` through the replicate loop. -/
theorem repLoop_length (ev : Integrator) (RAND_MAX : Nat) (rnd : Nat → Nat) (n : Nat) :
    (repLoop ev RAND_MAX rnd n).tvec.length = STEPS ∧
    (repLoop ev RAND_MAX rnd n).y0vec.length = STEPS := by
  induction n with
  | zero => exact calloc_vecs_length
  | succ n ih =>
    rw [repLoop_succ, repBody_tvec, repBody_y0vec]
    have h := replicate_spec ev (damping RAND_MAX (rnd n)) _ _ ih.1 ih.2
    exact ⟨h.2.1, h.2.2.1⟩

/-- The local sum vector after `n` replicates is the sum of the `n`
trajectories. -/
theorem repLoop_y0vec (ev : Integrator) (RAND_MAX : Nat) (rnd : Nat → Nat) (n i : Nat)
    (hi : i < STEPS) :
    (repLoop ev RAND_MAX rnd n).y0vec.getD i 0
      = ∑ j in Finset.range n, traj ev (damping RAND_MAX (rnd j)) i := by
  induction n with
  | zero =>
    rw [repLoop_zero, (calloc_vecs_getD i).2]
    simp
  | succ n ih =>
    rw [repLoop_succ, repBody_y0vec, Finset.sum_range_succ, ← ih]
    have hl := repLoop_length ev RAND_MAX rnd n
    exact (replicate_spec ev (damping RAND_MAX (rnd n)) _ _ hl.1 hl.2).2.2.2.2 i hi

/-- The time vector is untouched without a replicate, and afterwards holds the
times of the last replicate run. -/
theorem repLoop_tvec (ev : Integrator) (RAND_MAX : Nat) (rnd : Nat → Nat) (n i : Nat)
    (hi : i < STEPS) :
    (repLoop ev RAND_MAX rnd n).tvec.getD i 0
      = if n = 0 then 0 else (evolveState ev (damping RAND_MAX (rnd (n - 1))) i).1 := by
  cases n with
  | zero =>
    rw [repLoop_zero, (calloc_vecs_getD i).1]
    simp
  | succ n =>
    rw [repLoop_succ, repBody_tvec, if_neg (Nat.succ_ne_zero n), Nat.add_sub_cancel]
    have hl := repLoop_length ev RAND_MAX rnd n
    exact (replicate_spec ev (damping RAND_MAX (rnd n)) _ _ hl.1 hl.2).2.2.2.1 i hi

/-- An integrator that advances `t` by exactly the step size reaches time
`n * H` after `n` calls. -/
theorem evolveState_time (ev : Integrator)
    (hev : ∀ sys t h y, (ev sys t h y).t = t + h) (d : ℚ) (n : Nat) :
    (evolveState ev d n).1 = (n : ℚ) * H := by
  induction n with
  | zero => simp [evolveState]
  | succ n ih =>
    simp only [evolveState, hev, ih]
    push_cast
    ring

/-! ## Reduction and output: auxiliary facts -/

theorem MPI_Reduce_SUM_length (W : Nat) (sendbuf : Nat → List ℚ) :
    (MPI_Reduce_SUM W sendbuf).length = STEPS := by
  simp only [MPI_Reduce_SUM, List.length_map, List.length_range]

theorem MPI_Reduce_SUM_getElem? (W : Nat) (sendbuf : Nat → List ℚ) (i : Nat)
    (hi : i < STEPS) :
    (MPI_Reduce_SUM W sendbuf)[i]? = some (∑ w in Finset.range W, (sendbuf w).getD i 0) := by
  simp only [MPI_Reduce_SUM, List.getElem?_map, List.getElem?_range hi, Option.map_some']

/-- The rows `save` writes once the file is open. -/
theorem save_rows (t : List ℚ) (y : List (Option ℚ)) (n : Nat) :
    ∃ rows, save true t y n = some rows ∧ rows.length = n ∧
      ∀ i, i < n → ∀ dflt, rows.getD i dflt = (t.getD i 0, y.getD i none) := by
  refine ⟨(List.range n).map fun i => (t.getD i 0, y.getD i none), ?_, ?_, ?_⟩
  · simp only [save, if_true]
  · simp only [List.length_map, List.length_range]
  · intro i hi dflt
    simp only [List.getD_eq_getElem?_getD, List.getElem?_map, List.getElem?_range hi,
      Option.map_some', Option.getD_some]

theorem y0vec_recv_length (ev : Integrator) (RAND_MAX R W : Nat) (rnd : Nat → Nat → Nat) :
    (y0vec_recv ev RAND_MAX R W rnd).length = STEPS := by
  simp only [y0vec_recv, List.length_map, MPI_Reduce_SUM_length]

/-- Element `i` of `y0vec_recv` after the division: the sum of the local sum
vectors at `i`, divided by `R`. -/
theorem y0vec_recv_getD (ev : Integrator) (RAND_MAX R W : Nat) (rnd : Nat → Nat → Nat)
    (i : Nat) (hi : i < STEPS) (dflt : Option ℚ) :
    (y0vec_recv ev RAND_MAX R W rnd).getD i dflt
      = ddiv (∑ w in Finset.range W, (worker ev RAND_MAX R W w (rnd w)).y0vec.getD i 0)
          (R : ℚ) := by
  simp only [y0vec_recv, List.getD_eq_getElem?_getD, List.getElem?_map,
    MPI_Reduce_SUM_getElem? _ _ i hi, Option.map_some', Option.getD_some]

/-- The file rank 0 writes when `daten.dat` can be opened: row `i` holds
`tvec[i]` of rank 0 and the reduced sum at `i` divided by `R`. -/
theorem main_zero_daten (ev : Integrator) (RAND_MAX R W : Nat) (rnd : Nat → Nat → Nat) :
    ∃ rows, (main ev RAND_MAX R W rnd true 0).daten = some rows ∧ rows.length = STEPS ∧
      ∀ i, i < STEPS → ∀ dflt, rows.getD i dflt =
        ((worker ev RAND_MAX R W 0 (rnd 0)).tvec.getD i 0,
          ddiv (∑ w in Finset.range W, (worker ev RAND_MAX R W w (rnd w)).y0vec.getD i 0)
            (R : ℚ)) := by
  obtain ⟨rows, hsave, hlen, hrow⟩ :=
    save_rows (worker ev RAND_MAX R W 0 (rnd 0)).tvec (y0vec_recv ev RAND_MAX R W rnd) STEPS
  have hd : (main ev RAND_MAX R W rnd true 0).daten = some rows := by
    simp only [main, if_true, hsave]
  refine ⟨rows, hd, hlen, ?_⟩
  intro i hi dflt
  rw [hrow i hi dflt, y0vec_recv_getD ev RAND_MAX R W rnd i hi none]

/-- When `daten.dat` can be opened every process returns `EXIT_SUCCESS`. -/
theorem main_exit (ev : Integrator) (RAND_MAX R W : Nat) (rnd : Nat → Nat → Nat)
    (world_rank : Nat) :
    (main ev RAND_MAX R W rnd true world_rank).exit = some EXIT_SUCCESS := by
  by_cases h : world_rank = 0
  · subst h
    obtain ⟨rows, hsave, _, _⟩ :=
      save_rows (worker ev RAND_MAX R W 0 (rnd 0)).tvec (y0vec_recv ev RAND_MAX R W rnd) STEPS
    simp only [main, if_true, hsave]
  · simp only [main, if_neg h]

/-- When `daten.dat` cannot be opened rank 0 dies in `save`: no rows, no
return from `main`. -/
theorem main_fopen_null (ev : Integrator) (RAND_MAX R W : Nat) (rnd : Nat → Nat → Nat) :
    main ev RAND_MAX R W rnd false 0 = { daten := none, exit := none } := by
  simp [main, save]

/-! ## Workers: auxiliary facts -/

theorem worker_eq_repLoop (ev : Integrator) (RAND_MAX R W world_rank : Nat) (rnd : Nat → Nat) :
    worker ev RAND_MAX R W world_rank rnd = repLoop ev RAND_MAX rnd (l_rep R W world_rank) :=
  rfl

/-- A rank below `W - R` gets no replicate when `R < W`. -/
theorem l_rep_eq_zero (R W world_rank : Nat) (hRW : R < W) (hr : world_rank < W - R) :
    l_rep R W world_rank = 0 := by
  have hdiv : R / W = 0 := Nat.div_eq_of_lt hRW
  have hmod : R % W = R := Nat.mod_eq_of_lt hRW
  have hc : ¬ (R > 0 ∧ W - R ≤ world_rank) := by omega
  simp only [l_rep, hdiv, hmod, if_neg hc]

/-- The displacement sequence of one replicate run on fresh arrays is the
reference trajectory. -/
theorem replicate_calloc_y0vec (ev : Integrator) (d : ℚ) (i : Nat) (hi : i < STEPS) :
    (replicate ev d calloc_vecs.tvec calloc_vecs.y0vec).y0vec.getD i 0 = traj ev d i := by
  rw [(replicate_spec ev d _ _ calloc_vecs_length.1 calloc_vecs_length.2).2.2.2.2 i hi,
    (calloc_vecs_getD i).2, zero_add]

/-- With one damping value for all replicates the reduced sum is `R` times the
trajectory. -/
theorem reduced_sum_fixed_damping (ev : Integrator) (RAND_MAX R W : Nat)
    (rnd : Nat → Nat → Nat) (d : ℚ) (hW : 1 ≤ W)
    (hd : ∀ w, w < W → ∀ j, j < l_rep R W w → damping RAND_MAX (rnd w j) = d)
    (i : Nat) (hi : i < STEPS) :
    (∑ w in Finset.range W, (worker ev RAND_MAX R W w (rnd w)).y0vec.getD i 0)
      = (R : ℚ) * traj ev d i := by
  have hw : ∀ w ∈ Finset.range W, (worker ev RAND_MAX R W w (rnd w)).y0vec.getD i 0
      = (l_rep R W w : ℚ) * traj ev d i := by
    intro w hwW
    rw [worker_eq_repLoop, repLoop_y0vec ev RAND_MAX (rnd w) _ i hi]
    have hc : ∀ j ∈ Finset.range (l_rep R W w),
        traj ev (damping RAND_MAX (rnd w j)) i = traj ev d i := by
      intro j hj
      rw [hd w (Finset.mem_range.mp hwW) j (Finset.mem_range.mp hj)]
    rw [Finset.sum_congr rfl hc, Finset.sum_const, Finset.card_range, nsmul_eq_mul]
  rw [Finset.sum_congr rfl hw, ← Finset.sum_mul, ← Nat.cast_sum, sum_l_rep R W hW]

/-! ## The oscillator model and the damping draw: claims -/

/-- C4: for every state `(x, v)` and parameters `(k, d, m)` with `m ≠ 0`, in
exact arithmetic, the model `f` writes the derivative
`(v, -d*v/m - k*x/m)` and returns success; at
`(x=0, v=0.1, k=9000, d=1000, m=450)` the derivative is `(1/10, -2/9)`. -/
theorem C4_oscillator_derivative (t x v k d m : ℚ) (hm : m ≠ 0) :
    f t (x, v) { k := k, d := d, m := m }
      = (GSL_SUCCESS, (v, -d * v / m - k * x / m)) ∧
    f t (0, 1 / 10) { k := 9000, d := 1000, m := 450 }
      = (GSL_SUCCESS, (1 / 10, -2 / 9)) := by
  constructor
  · simp only [f, Prod.mk.injEq, true_and]
    field_simp
  · simp only [f, Prod.mk.injEq, true_and]
    norm_num

/-- Witness of C4 at the state and parameters a replicate starts from with
damping 1000. -/
theorem C4_oscillator_derivative_witness :
    M ≠ 0 ∧ f 0 (0, 1 / 10) { k := K, d := 1000, m := M }
      = (GSL_SUCCESS, (1 / 10, -1000 * (1 / 10) / M - K * 0 / M)) :=
  ⟨by norm_num [M],
    (C4_oscillator_derivative 0 0 (1 / 10) K 1000 M (by norm_num [M])).1⟩

/-- C8, as the claim states it, fails: when `rand()` returns `RAND_MAX`
(here the value `2147483647` of glibc) the damping equals `D_MAX = 1200`, and
it is not `D_MIN + (D_MAX - D_MIN) * U` for any `U` in `[0, 1)`. -/
theorem C8_damping_reaches_D_MAX :
    damping 2147483647 2147483647 = D_MAX ∧
    ¬ damping 2147483647 2147483647 < 1200 ∧
    ¬ ∃ U : ℚ, 0 ≤ U ∧ U < 1 ∧
      damping 2147483647 2147483647 = D_MIN + (D_MAX - D_MIN) * U := by
  have h : damping 2147483647 2147483647 = 1200 := by
    norm_num [damping, D_MAX, D_MIN]
  refine ⟨by rw [h]; rfl, by rw [h]; norm_num, ?_⟩
  rintro ⟨U, _, hU1, hU⟩
  rw [h] at hU
  simp only [D_MIN, D_MAX] at hU
  linarith

/-- C8 amended: for every `RAND_MAX > 0` and every value `0 ≤ r ≤ RAND_MAX`
of `rand()`, the damping is `D_MIN + (D_MAX - D_MIN) * U` with
`U = r / RAND_MAX` in the closed interval `[0, 1]`, so it lies in
`[800, 1200]`; it equals `D_MAX` exactly when `r = RAND_MAX`. -/
theorem C8_damping_range (RAND_MAX r : Nat) (hmax : 0 < RAND_MAX) (hr : r ≤ RAND_MAX) :
    damping RAND_MAX r = D_MIN + (D_MAX - D_MIN) * ((r : ℚ) / (RAND_MAX : ℚ)) ∧
    0 ≤ (r : ℚ) / (RAND_MAX : ℚ) ∧ (r : ℚ) / (RAND_MAX : ℚ) ≤ 1 ∧
    800 ≤ damping RAND_MAX r ∧ damping RAND_MAX r ≤ 1200 ∧
    (damping RAND_MAX r = D_MAX ↔ r = RAND_MAX) := by
  have hq : (0 : ℚ) < (RAND_MAX : ℚ) := by exact_mod_cast hmax
  have hrq : (r : ℚ) ≤ (RAND_MAX : ℚ) := by exact_mod_cast hr
  have h0 : 0 ≤ (r : ℚ) / (RAND_MAX : ℚ) := div_nonneg (Nat.cast_nonneg r) hq.le
  have h1 : (r : ℚ) / (RAND_MAX : ℚ) ≤ 1 := (div_le_one hq).mpr hrq
  refine ⟨by unfold damping; ring, h0, h1, ?_, ?_, ?_⟩
  · simp only [damping, D_MAX, D_MIN]
    linarith
  · simp only [damping, D_MAX, D_MIN]
    linarith
  · simp only [damping, D_MAX, D_MIN]
    constructor
    · intro h
      have hu : (r : ℚ) / (RAND_MAX : ℚ) = 1 := by linarith
      rw [div_eq_one_iff_eq hq.ne'] at hu
      exact_mod_cast hu
    · intro h
      subst h
      rw [div_self hq.ne']
      norm_num

/-- Witness of the amended C8 at `RAND_MAX = 2147483647`, `r = 1073741823`. -/
theorem C8_damping_range_witness :
    0 < 2147483647 ∧ 1073741823 ≤ 2147483647 ∧
      800 ≤ damping 2147483647 1073741823 ∧ damping 2147483647 1073741823 ≤ 1200 :=
  ⟨by decide, by decide,
    (C8_damping_range 2147483647 1073741823 (by decide) (by decide)).2.2.2.1,
    (C8_damping_range 2147483647 1073741823 (by decide) (by decide)).2.2.2.2.1⟩

/-! ## The ensemble mean: claims -/

/-- C5: for every total `R ≥ 1` and worker count `W ≥ 1`, if every replicate
uses the same damping value `d`, then the mean trajectory the coordinator
computes (the reduced sum of all local sum vectors, each element divided by
`R`) equals, at every one of the `STEPS` indices, the displacement sequence of
a single replicate run with damping `d`, in exact arithmetic; the same holds
for the mean column of the rows written once `daten.dat` is open. -/
theorem C5_mean_of_identical_replicates (ev : Integrator) (RAND_MAX R W : Nat)
    (rnd : Nat → Nat → Nat) (d : ℚ) (hR : 1 ≤ R) (hW : 1 ≤ W)
    (hd : ∀ w, w < W → ∀ j, j < l_rep R W w → damping RAND_MAX (rnd w j) = d) :
    (y0vec_recv ev RAND_MAX R W rnd).length = STEPS ∧
    (∀ i, i < STEPS → (y0vec_recv ev RAND_MAX R W rnd).getD i none
        = some ((replicate ev d calloc_vecs.tvec calloc_vecs.y0vec).y0vec.getD i 0)) ∧
    ∃ rows, (main ev RAND_MAX R W rnd true 0).daten = some rows ∧ rows.length = STEPS ∧
      ∀ i, i < STEPS → (rows.getD i (0, none)).2
        = some ((replicate ev d calloc_vecs.tvec calloc_vecs.y0vec).y0vec.getD i 0) := by
  have hRq : (R : ℚ) ≠ 0 := by
    have : 0 < R := hR
    exact_mod_cast this.ne'
  have hmean : ∀ i, i < STEPS →
      ddiv (∑ w in Finset.range W, (worker ev RAND_MAX R W w (rnd w)).y0vec.getD i 0) (R : ℚ)
        = some ((replicate ev d calloc_vecs.tvec calloc_vecs.y0vec).y0vec.getD i 0) := by
    intro i hi
    rw [reduced_sum_fixed_damping ev RAND_MAX R W rnd d hW hd i hi,
      replicate_calloc_y0vec ev d i hi]
    simp only [ddiv, if_neg hRq]
    rw [mul_div_cancel_left₀ _ hRq]
  refine ⟨y0vec_recv_length ev RAND_MAX R W rnd, ?_, ?_⟩
  · intro i hi
    rw [y0vec_recv_getD ev RAND_MAX R W rnd i hi none, hmean i hi]
  · obtain ⟨rows, hrows, hlen, hrow⟩ := main_zero_daten ev RAND_MAX R W rnd
    refine ⟨rows, hrows, hlen, ?_⟩
    intro i hi
    rw [hrow i hi, hmean i hi]

/-- Witness of C5: `R = 4`, `W = 1`, every call of `rand()` returning 0, so
that every replicate runs with damping 800. -/
theorem C5_mean_of_identical_replicates_witness :
    1 ≤ 4 ∧ 1 ≤ 1 ∧
    (∀ w, w < 1 → ∀ j, j < l_rep 4 1 w → damping 2147483647 ((fun _ _ => 0) w j) = 800) ∧
    (y0vec_recv eulerStep 2147483647 4 1 (fun _ _ => 0)).length = STEPS ∧
    (∀ i, i < STEPS → (y0vec_recv eulerStep 2147483647 4 1 (fun _ _ => 0)).getD i none
        = some ((replicate eulerStep 800 calloc_vecs.tvec calloc_vecs.y0vec).y0vec.getD i 0)) ∧
    ∃ rows, (main eulerStep 2147483647 4 1 (fun _ _ => 0) true 0).daten = some rows ∧
      rows.length = STEPS ∧
      ∀ i, i < STEPS → (rows.getD i (0, none)).2
        = some ((replicate eulerStep 800 calloc_vecs.tvec calloc_vecs.y0vec).y0vec.getD i 0) :=
  ⟨by decide, by decide, fun _ _ _ _ => by norm_num [damping, D_MAX, D_MIN],
    C5_mean_of_identical_replicates eulerStep 2147483647 4 1 (fun _ _ => 0) 800
      (by decide) (by decide) (fun _ _ _ _ => by norm_num [damping, D_MAX, D_MIN])⟩

/-! ## Error handling: claims -/

/-- C6, as the claim states it, fails: with `REP = 0` on one process the program
is not rejected; rank 0 reaches the division by `(double)REP`, which leaves no
number in any element of `y0vec_recv`, and in the run in which `daten.dat` can
be opened it writes `STEPS` rows whose mean column is not a number and returns
`EXIT_SUCCESS`. -/
theorem C6_zero_replicates_not_rejected :
    (∀ i, i < STEPS →
      (y0vec_recv eulerStep 2147483647 0 1 (fun _ _ => 0)).getD i (some 0) = none) ∧
    (main eulerStep 2147483647 0 1 (fun _ _ => 0) true 0).exit = some EXIT_SUCCESS ∧
    ∃ rows, (main eulerStep 2147483647 0 1 (fun _ _ => 0) true 0).daten = some rows ∧
      rows.length = STEPS ∧ ∀ i, i < STEPS → rows.getD i (0, some 0) = (0, none) := by
  refine ⟨?_, main_exit _ _ _ _ _ _, ?_⟩
  · intro i hi
    rw [y0vec_recv_getD _ _ _ _ _ i hi]
    simp [ddiv]
  · obtain ⟨rows, hrows, hlen, hrow⟩ :=
      main_zero_daten eulerStep 2147483647 0 1 (fun _ _ => 0)
    refine ⟨rows, hrows, hlen, ?_⟩
    intro i hi
    rw [hrow i hi, worker_eq_repLoop]
    have hl : l_rep 0 1 0 = 0 := by decide
    rw [hl, repLoop_zero, (calloc_vecs_getD i).1]
    simp [ddiv]

/-- C6 amended: a run configured with `REP = 0` is not rejected.  On any number
of processes every rank gets the local count 0 and leaves its arrays as
allocated (no integrator call); rank 0 still divides every element of the
reduced sum by `(double)REP = 0`, which leaves no number in `y0vec_recv`.
Provided `daten.dat` can be opened for writing, rank 0 writes `STEPS` rows
with time 0 and a mean that is not a number, and every process returns
`EXIT_SUCCESS`.  When the file cannot be opened rank 0 dies in `save`, after
the division, with no rows written and no return from `main`. -/
theorem C6_zero_replicates_outcome (ev : Integrator) (RAND_MAX W : Nat)
    (rnd : Nat → Nat → Nat) :
    (∀ world_rank, l_rep 0 W world_rank = 0 ∧
      worker ev RAND_MAX 0 W world_rank (rnd world_rank) = calloc_vecs) ∧
    (y0vec_recv ev RAND_MAX 0 W rnd).length = STEPS ∧
    (∀ i, i < STEPS → (y0vec_recv ev RAND_MAX 0 W rnd).getD i (some 0) = none) ∧
    (∀ world_rank, (main ev RAND_MAX 0 W rnd true world_rank).exit = some EXIT_SUCCESS) ∧
    (∃ rows, (main ev RAND_MAX 0 W rnd true 0).daten = some rows ∧
      rows.length = STEPS ∧ ∀ i, i < STEPS → rows.getD i (0, some 0) = (0, none)) ∧
    main ev RAND_MAX 0 W rnd false 0 = { daten := none, exit := none } := by
  have hl : ∀ world_rank, l_rep 0 W world_rank = 0 := by
    intro world_rank
    simp [l_rep]
  have hw : ∀ world_rank, worker ev RAND_MAX 0 W world_rank (rnd world_rank) = calloc_vecs := by
    intro world_rank
    rw [worker_eq_repLoop, hl, repLoop_zero]
  refine ⟨fun world_rank => ⟨hl world_rank, hw world_rank⟩,
    y0vec_recv_length ev RAND_MAX 0 W rnd, ?_, fun world_rank => main_exit _ _ _ _ _ _, ?_,
    main_fopen_null ev RAND_MAX 0 W rnd⟩
  · intro i hi
    rw [y0vec_recv_getD _ _ _ _ _ i hi]
    simp [ddiv]
  · obtain ⟨rows, hrows, hlen, hrow⟩ := main_zero_daten ev RAND_MAX 0 W rnd
    refine ⟨rows, hrows, hlen, ?_⟩
    intro i hi
    rw [hrow i hi, hw 0, (calloc_vecs_getD i).1]
    simp [ddiv]

/-- The status of the integrator never reaches the loop body. -/
theorem simBody_withStatus (ev : Integrator) (st : OdeSystem → ℚ → ℚ → ℚ × ℚ → Int) (d : ℚ) :
    simBody (withStatus ev st) d = simBody ev d := by
  funext s steps
  simp only [simBody, withStatus]

theorem worker_withStatus (ev : Integrator) (st : OdeSystem → ℚ → ℚ → ℚ × ℚ → Int)
    (RAND_MAX R W world_rank : Nat) (rnd : Nat → Nat) :
    worker (withStatus ev st) RAND_MAX R W world_rank rnd
      = worker ev RAND_MAX R W world_rank rnd := by
  have hb : repBody (withStatus ev st) RAND_MAX rnd = repBody ev RAND_MAX rnd := by
    funext v rep
    simp only [repBody, replicate, simLoop, simBody_withStatus]
  simp only [worker, repLoop, hb]

/-- State after the first two calls of the failing integrator with damping
800: the first call advances, the second leaves everything as it is. -/
theorem evolveState_failingStep :
    evolveState failingStep 800 1 = (1 / 100, (1 / 1000, 221 / 2250)) ∧
    evolveState failingStep 800 2 = (1 / 100, (1 / 1000, 221 / 2250)) := by
  have h1 : evolveState failingStep 800 1 = (1 / 100, (1 / 1000, 221 / 2250)) := by
    simp only [evolveState, failingStep, eulerStep, my_system, f, H, K, M, if_true,
      Prod.mk.injEq]
    norm_num
  refine ⟨h1, ?_⟩
  have h2 : evolveState failingStep 800 2
      = ((failingStep (my_system 800) (evolveState failingStep 800 1).1 H
            (evolveState failingStep 800 1).2).t,
         (failingStep (my_system 800) (evolveState failingStep 800 1).1 H
            (evolveState failingStep 800 1).2).y) := rfl
  rw [h2, h1]
  have hne : ¬ ((1 : ℚ) / 100 = 0) := by norm_num
  simp only [failingStep, if_neg hne]

/-- C7, as the claim states it, fails: with an integrator whose second call
(loop index 2) returns `GSL_FAILURE`, one replicate on one process still adds
the displacement left by the failed call to `y0vec[2]`, and in the run in which
`daten.dat` can be opened rank 0 writes the mean trajectory and `main` returns
`EXIT_SUCCESS`. -/
theorem C7_integrator_failure_ignored :
    (failingStep (my_system 800) (evolveState failingStep 800 1).1 H
      (evolveState failingStep 800 1).2).status = GSL_FAILURE ∧
    GSL_FAILURE ≠ GSL_SUCCESS ∧
    calloc_vecs.y0vec.getD 2 0 = 0 ∧
    (worker failingStep 2147483647 1 1 0 (fun _ => 0)).y0vec.getD 2 0 = 1 / 1000 ∧
    (main failingStep 2147483647 1 1 (fun _ _ => 0) true 0).exit = some EXIT_SUCCESS ∧
    ∃ rows, (main failingStep 2147483647 1 1 (fun _ _ => 0) true 0).daten = some rows ∧
      rows.getD 2 (0, none) = (1 / 100, some (1 / 1000)) := by
  have hd : damping 2147483647 0 = 800 := by norm_num [damping, D_MAX, D_MIN]
  have hl : l_rep 1 1 0 = 1 := by decide
  have h2 : 2 < STEPS := by decide
  have hne : ¬ ((1 : ℚ) / 100 = 0) := by norm_num
  have hy : (worker failingStep 2147483647 1 1 0 (fun _ => 0)).y0vec.getD 2 0 = 1 / 1000 := by
    rw [worker_eq_repLoop, repLoop_y0vec _ _ _ _ 2 h2, hl]
    simp only [Finset.sum_range_one, hd, traj, evolveState_failingStep.2]
  have ht : (worker failingStep 2147483647 1 1 0 (fun _ => 0)).tvec.getD 2 0 = 1 / 100 := by
    rw [worker_eq_repLoop, repLoop_tvec _ _ _ _ 2 h2, hl]
    simp only [hd, evolveState_failingStep.2]
    norm_num
  refine ⟨?_, by decide, (calloc_vecs_getD 2).2, hy, main_exit _ _ _ _ _ _, ?_⟩
  · rw [evolveState_failingStep.1]
    simp only [failingStep, if_neg hne]
  · obtain ⟨rows, hrows, _, hrow⟩ :=
      main_zero_daten failingStep 2147483647 1 1 (fun _ _ => 0)
    refine ⟨rows, hrows, ?_⟩
    rw [hrow 2 h2, ht, Finset.sum_range_one, hy]
    simp [ddiv]

/-- C7 amended: the status the integrator returns is ignored.  Whatever status
`st` each call reports, the loop body adds the value `y[0]` left by that call
to the element of the local sum vector at the loop index, so that after the
replicate loop every element of the local sum vector is the sum of the
displacements of all the replicates of the process, none left out; every
process computes the same arrays and the same outcome as with the statuses the
integrator would otherwise report.  Provided `daten.dat` can be opened for
writing, rank 0 writes the `STEPS` rows of the mean trajectory, each holding
`tvec[i]` and the sum of all local sum vectors at `i` divided by `R`, and
`main` returns `EXIT_SUCCESS` on every process. -/
theorem C7_integrator_status_ignored (ev : Integrator)
    (st : OdeSystem → ℚ → ℚ → ℚ × ℚ → Int) (RAND_MAX R W : Nat) (rnd : Nat → Nat → Nat) :
    (∀ (d : ℚ) (s : Sim) (steps : Nat), steps < s.y0vec.length →
      (simBody (withStatus ev st) d s steps).y0vec.getD steps 0
        = s.y0vec.getD steps 0 + (withStatus ev st (my_system d) s.t H s.y).y.1) ∧
    (∀ world_rank,
      worker (withStatus ev st) RAND_MAX R W world_rank (rnd world_rank)
        = worker ev RAND_MAX R W world_rank (rnd world_rank) ∧
      ∀ i, i < STEPS →
        (worker (withStatus ev st) RAND_MAX R W world_rank (rnd world_rank)).y0vec.getD i 0
          = ∑ j in Finset.range (l_rep R W world_rank),
              traj (withStatus ev st) (damping RAND_MAX (rnd world_rank j)) i) ∧
    (∀ fopen_ok world_rank,
      main (withStatus ev st) RAND_MAX R W rnd fopen_ok world_rank
        = main ev RAND_MAX R W rnd fopen_ok world_rank) ∧
    (∀ world_rank,
      (main (withStatus ev st) RAND_MAX R W rnd true world_rank).exit = some EXIT_SUCCESS) ∧
    ∃ rows, (main (withStatus ev st) RAND_MAX R W rnd true 0).daten = some rows ∧
      rows.length = STEPS ∧
      ∀ i, i < STEPS → rows.getD i (0, none) =
        ((worker (withStatus ev st) RAND_MAX R W 0 (rnd 0)).tvec.getD i 0,
          ddiv (∑ w in Finset.range W,
            (worker (withStatus ev st) RAND_MAX R W w (rnd w)).y0vec.getD i 0) (R : ℚ)) := by
  refine ⟨?_, ?_, ?_, fun world_rank => main_exit _ _ _ _ _ _, ?_⟩
  · intro d s steps hlt
    simp only [simBody, getD_set_zero]
    rw [if_pos ⟨trivial, hlt⟩]
  · intro world_rank
    refine ⟨worker_withStatus _ _ _ _ _ _ _, ?_⟩
    intro i hi
    rw [worker_eq_repLoop, repLoop_y0vec _ _ _ _ i hi]
  · intro fopen_ok world_rank
    simp only [main, y0vec_recv, worker_withStatus]
  · obtain ⟨rows, hrows, hlen, hrow⟩ :=
      main_zero_daten (withStatus ev st) RAND_MAX R W rnd
    exact ⟨rows, hrows, hlen, fun i hi => hrow i hi (0, none)⟩

/-! ## The arrays after the replicate loop: claims -/

/-- On a process that runs at least one replicate, with an integrator that
advances `t` by exactly the step size, the time vector is `i * H`. -/
theorem worker_tvec_of_replicates (ev : Integrator)
    (hev : ∀ sys t h y, (ev sys t h y).t = t + h) (RAND_MAX R W world_rank : Nat)
    (rnd : Nat → Nat) (hl : 1 ≤ l_rep R W world_rank) (i : Nat) (hi : i < STEPS) :
    (worker ev RAND_MAX R W world_rank rnd).tvec.getD i 0 = (i : ℚ) * H := by
  have hne : ¬ (l_rep R W world_rank = 0) := by omega
  rw [worker_eq_repLoop, repLoop_tvec _ _ _ _ i hi, if_neg hne, evolveState_time ev hev]

/-- C9 fails on the code for a process without replicates.  With the compiled
`REP = 1000` on 1001 processes, rank 0 has the local count 0, its replicate
loop never assigns `tvec`, and the time column it writes to the output (once
`daten.dat` is open) is 0 at every index instead of `i * H`, whatever the
integrator and the damping samples are. -/
theorem C9_time_vector_without_replicates (ev : Integrator) (RAND_MAX : Nat)
    (rnd : Nat → Nat → Nat) :
    l_rep REP 1001 0 = 0 ∧
    (worker ev RAND_MAX REP 1001 0 (rnd 0)).tvec = List.replicate STEPS 0 ∧
    (worker ev RAND_MAX REP 1001 0 (rnd 0)).tvec.getD 1 0 ≠ (1 : ℚ) * H ∧
    ∃ rows, (main ev RAND_MAX REP 1001 rnd true 0).daten = some rows ∧
      rows.length = STEPS ∧ ∀ i, i < STEPS → (rows.getD i (1, none)).1 = 0 := by
  have hl : l_rep REP 1001 0 = 0 := by decide
  have hw : worker ev RAND_MAX REP 1001 0 (rnd 0) = calloc_vecs := by
    rw [worker_eq_repLoop, hl, repLoop_zero]
  refine ⟨hl, by rw [hw]; rfl, ?_, ?_⟩
  · rw [hw, (calloc_vecs_getD 1).1]
    norm_num [H]
  · obtain ⟨rows, hrows, hlen, hrow⟩ := main_zero_daten ev RAND_MAX REP 1001 rnd
    refine ⟨rows, hrows, hlen, ?_⟩
    intro i hi
    rw [hrow i hi, hw, (calloc_vecs_getD i).1]

/-- C10: for every local replicate count `n` and damping samples
`damping (rnd 0), ..., damping (rnd (n-1))`, after the replicate loop the local
sum vector has length `STEPS` and satisfies, at every index `i < STEPS`,
`y0vec[i] = ∑ j < n, traj (damping (rnd j)) i`, where `traj d i` is the
displacement after `i` integrator calls started from displacement 0, velocity
0.1, time 0 with damping `d`; `traj d 0 = 0`; a replicate started on the arrays
the loop has reached ends in the state after exactly `STEPS - 1` integrator
calls from that initial state; and a process with zero replicates (every rank
below `W - R` when `R < W`) contributes the all-zero vector of length `STEPS`. -/
theorem C10_local_sum_vector (ev : Integrator) (RAND_MAX : Nat) (rnd : Nat → Nat)
    (n i : Nat) (hi : i < STEPS) :
    (repLoop ev RAND_MAX rnd n).y0vec.length = STEPS ∧
    (repLoop ev RAND_MAX rnd n).y0vec.getD i 0
      = ∑ j in Finset.range n, traj ev (damping RAND_MAX (rnd j)) i ∧
    (∀ d, traj ev d 0 = 0) ∧
    (∀ d,
      ((replicate ev d (repLoop ev RAND_MAX rnd n).tvec (repLoop ev RAND_MAX rnd n).y0vec).t,
       (replicate ev d (repLoop ev RAND_MAX rnd n).tvec (repLoop ev RAND_MAX rnd n).y0vec).y)
        = evolveState ev d (STEPS - 1)) ∧
    (∀ R W world_rank, R < W → world_rank < W - R →
      l_rep R W world_rank = 0 ∧
      (worker ev RAND_MAX R W world_rank rnd).y0vec = List.replicate STEPS 0) := by
  have hlen := repLoop_length ev RAND_MAX rnd n
  refine ⟨hlen.2, repLoop_y0vec ev RAND_MAX rnd n i hi, fun d => rfl, ?_, ?_⟩
  · intro d
    exact (replicate_spec ev d _ _ hlen.1 hlen.2).1
  · intro R W world_rank hRW hr
    have hl := l_rep_eq_zero R W world_rank hRW hr
    refine ⟨hl, ?_⟩
    rw [worker_eq_repLoop, hl, repLoop_zero]
    rfl

/-- Witness of C10: three replicates with damping 800 under the Euler
integrator, index 5; and rank 0 of 3 processes with 2 replicates in total. -/
theorem C10_local_sum_vector_witness :
    5 < STEPS ∧
    (repLoop eulerStep 2147483647 (fun _ => 0) 3).y0vec.getD 5 0
      = ∑ j in Finset.range 3, traj eulerStep (damping 2147483647 ((fun _ => 0) j)) 5 ∧
    (2 < 3 ∧ 0 < 3 - 2 ∧
      (worker eulerStep 2147483647 2 3 0 (fun _ => 0)).y0vec = List.replicate STEPS 0) :=
  ⟨by decide,
    (C10_local_sum_vector eulerStep 2147483647 (fun _ => 0) 3 5 (by decide)).2.1,
    by decide, by decide,
    ((C10_local_sum_vector eulerStep 2147483647 (fun _ => 0) 3 5 (by decide)).2.2.2.2
      2 3 0 (by decide) (by decide)).2⟩

end Para
